import Mathlib

/-!
Verification development for the ToolCreationTool repository.

The repository's core is the `ToolManager` class (toolManager.js): a catalog of
tool definitions stored in a vector-store collection (ChromaDB), with a
distinguished "meta-tool" (`create_new_tool`, id `core_create_tool_001`), and a
synthesis pipeline (`executeToolCreation`) that turns an LLM completion into a
validated, persisted tool definition.

This file gives a shallow embedding of that code:
- JavaScript/JSON values are modelled by `JVal` (numbers as integers: no claim
  involves non-integral numerics).
- The backing collection is modelled as an association list from string ids to
  (metadata, document) pairs, with Chroma's upsert/get semantics.
- External backends (the Chroma query, the LLM completion, JSON.parse — a
  facility of the host language, not of this repository) enter as explicit
  oracle parameters.
- The mutually recursive initialization knot
  (`_getOrCreateCollection` / `ensureToolCreationTool` / `addTool`) is embedded
  with an explicit fuel parameter (`initSys`), since the source recursion has
  no termination argument.
- The post-initialization bodies of the methods (the code after the
  `await this._getOrCreateCollection()` line of each method) are embedded as
  pure functions over an established collection (`...Body` definitions); the
  behaviour of the initialization line itself is settled by the fuel model.
-/

/-- JSON / JavaScript values. Numbers are modelled as integers (no claim in
this development involves fractional numerics). -/
inductive JVal where
  | jnull
  | jbool (b : Bool)
  | jnum (n : Int)
  | jstr (s : String)
  | jarr (xs : List JVal)
  | jobj (fields : List (String × JVal))

/-- Property read `v[k]` on a JavaScript value: defined for objects, and
`undefined` (here `none`) for every other value and for a missing key. The
code under verification only reads the keys `id`, `name`, `description`,
`parameters`, `type`, `properties`, none of which is a built-in property of
JS primitives, so `none` on non-objects is faithful. Reading a property of
`null` throws in JS; the code under verification only does so inside a
try/catch whose observable outcome coincides with the `undefined` outcome,
see `execPipeline`. -/
def getField (v : JVal) (k : String) : Option JVal :=
  match v with
  | .jobj fs => (fs.find? (fun p => p.1 = k)).map (fun p => p.2)
  | _ => none

/-- Property assignment `v[k] = x` on a JavaScript object: overwrites in
place when the key exists (even with a falsy value), appends otherwise.
On non-objects the source never assigns (primitives swallow assignments),
so the value is returned unchanged. -/
def setField (v : JVal) (k : String) (x : JVal) : JVal :=
  match v with
  | .jobj fs =>
      .jobj (if fs.any (fun p => p.1 = k) then
               fs.map (fun p => if p.1 = k then (k, x) else p)
             else fs ++ [(k, x)])
  | other => other

/-- JavaScript truthiness of a possibly-absent value: `undefined`, `null`,
`false`, `0`, and the empty string are falsy; arrays and objects are truthy. -/
def truthy : Option JVal → Bool
  | none => false
  | some .jnull => false
  | some (.jbool b) => b
  | some (.jnum n) => n ≠ 0
  | some (.jstr s) => s ≠ ""
  | some (.jarr _) => true
  | some (.jobj _) => true

/-- JavaScript string coercion as used by the template literal
``` `${name}: ${description}` ``` in `addTool`. Arrays and objects are
rendered by placeholders (the source only ever interpolates strings there). -/
def jsToString : Option JVal → String
  | none => "undefined"
  | some .jnull => "null"
  | some (.jbool b) => if b then "true" else "false"
  | some (.jnum n) => toString n
  | some (.jstr s) => s
  | some (.jarr _) => ""
  | some (.jobj _) => "[object Object]"

/-- The `id` property of a tool definition object. -/
def idOf (t : JVal) : Option JVal := getField t "id"

/-- Key as stored in a JavaScript `Set` for the dedup step of
`getAvailableTools`. Strings and primitives compare by value (SameValueZero);
object- and array-valued ids would compare by reference in JS and are
collapsed to `kref` here — no state reachable through `addTool` stores a
non-string id, see `addToolB`. -/
inductive IdKey where
  | undef
  | knull
  | kbool (b : Bool)
  | knum (n : Int)
  | kstr (s : String)
  | kref
deriving DecidableEq

/-- The `Set`-key of a tool definition's `id` property. -/
def idKeyOf (t : JVal) : IdKey :=
  match idOf t with
  | none => .undef
  | some .jnull => .knull
  | some (.jbool b) => .kbool b
  | some (.jnum n) => .knum n
  | some (.jstr s) => .kstr s
  | some (.jarr _) => .kref
  | some (.jobj _) => .kref

/-- Whitespace characters of the JavaScript `\s` character class and of
`String.prototype.trim` (ASCII part plus the Unicode space separators). -/
def jsWS (c : Char) : Bool :=
  c = ' ' ∨ c = '\t' ∨ c = '\n' ∨ c = '\x0b' ∨ c = '\x0c' ∨ c = '\r' ∨
  c = ' ' ∨ c = ' ' ∨ c = ' ' ∨ c = ' ' ∨ c = ' ' ∨
  c = ' ' ∨ c = ' ' ∨ c = ' ' ∨ c = ' ' ∨ c = ' ' ∨
  c = ' ' ∨ c = ' ' ∨ c = ' ' ∨ c = ' ' ∨ c = ' ' ∨
  c = ' ' ∨ c = ' ' ∨ c = '　' ∨ c = '﻿'

/-- JavaScript `String.prototype.trim`. -/
def jsTrim (s : String) : String :=
  ⟨((s.data.dropWhile jsWS).reverse.dropWhile jsWS).reverse⟩

/-- Substring test on character lists (JavaScript `String.prototype.includes`). -/
def hasSubstrC (pat : List Char) : List Char → Bool
  | [] => pat.isEmpty
  | c :: rest => pat.isPrefixOf (c :: rest) || hasSubstrC pat rest

/-- JavaScript `haystack.includes(needle)`. -/
def containsSubstr (s pat : String) : Bool := hasSubstrC pat.data s.data

/-- JavaScript `String.prototype.startsWith`. -/
def strStartsWith (s p : String) : Bool := p.data.isPrefixOf s.data

/-- JavaScript `String.prototype.endsWith`. -/
def strEndsWith (s p : String) : Bool := p.data.isSuffixOf s.data

/-- The opening literal of the fenced-block regular expression in
`executeToolCreation`: the seven characters ```` ```json ````. -/
def tagChars : List Char := "```json".data

/-- The closing fence literal ```` ``` ````. -/
def fenceChars : List Char := "```".data

/-- Capture group of the regex ```` /```json\s*([\s\S]*?)\s*```/ ```` once the
opening literal has been consumed, for `rest` the text after ```` ```json ````.
The leading greedy `\s*` takes the maximal whitespace run; the lazy group then
grows one character at a time until the remainder is a whitespace run followed
immediately by the closing fence (the trailing greedy `\s*` can only be
followed by a backtick at the maximal-whitespace position, since a backtick is
not whitespace). Only called when a closing fence exists in `rest`. -/
def captureFromC (rest : List Char) : List Char :=
  let R := rest.dropWhile jsWS
  match (List.range (R.length + 1)).find?
      (fun c => fenceChars.isPrefixOf ((R.drop c).dropWhile jsWS)) with
  | some c => R.take c
  | none => []

/-- Leftmost match of the regex ```` /```json\s*([\s\S]*?)\s*```/ ```` over a
character list, returning the text of capture group 1 when the regex matches.
A match attempt at a position succeeds exactly when the opening literal
```` ```json ```` starts there and a closing fence ```` ``` ```` occurs
somewhere after it. -/
def findFencedC : List Char → Option (List Char)
  | [] => none
  | c :: rest =>
      if tagChars.isPrefixOf (c :: rest) && hasSubstrC fenceChars ((c :: rest).drop 7) then
        some (captureFromC ((c :: rest).drop 7))
      else findFencedC rest

/-- JSON extraction step of `executeToolCreation` (toolManager.js lines
252–262): `rawResponse.match(/```json\s*([\s\S]*?)\s*```/)` is taken when the
match exists and its capture is truthy (a non-empty string); otherwise the raw
response is accepted when it starts with an opening brace and ends with a
closing brace; otherwise extraction fails (the code throws the
"did not contain the expected JSON format" error). -/
def extractJson (raw : String) : Option String :=
  match findFencedC raw.data with
  | some cap =>
      if cap.isEmpty then
        if strStartsWith raw "\x7b" && strEndsWith raw "\x7d" then some raw else none
      else some ⟨cap⟩
  | none =>
      if strStartsWith raw "\x7b" && strEndsWith raw "\x7d" then some raw else none

/-- Modelled from the spec: the extraction step as claim C8 words it — "if the
response contains a fenced ```json ... ``` block its contents are taken; if no
such block exists, the raw response is accepted for parsing if and only if it
is already a complete JSON object (brace-delimited); in every other case the
operation fails". Unlike the code, this takes the capture even when it is the
empty string. -/
def extractClaim (raw : String) : Option String :=
  match findFencedC raw.data with
  | some cap => some ⟨cap⟩
  | none =>
      if strStartsWith raw "\x7b" && strEndsWith raw "\x7d" then some raw else none

/-- The backing Chroma collection: an association list from string ids to the
stored metadata (the full tool definition) and the stored document (the
embedding text). Chroma keys are unique; `upsert` below maintains that. -/
abbrev Collection : Type := List (String × JVal × String)

/-- Chroma `collection.upsert` for a single id: replaces the entry with that
id when present, appends otherwise. -/
def upsert (id : String) (meta : JVal) (doc : String) : Collection → Collection
  | [] => [(id, meta, doc)]
  | e :: rest => if e.1 = id then (id, meta, doc) :: rest else e :: upsert id meta doc rest

/-- Chroma `collection.get({ ids: [id] })`, returning the entry when the id is
stored. -/
def lookup (id : String) : Collection → Option (String × JVal × String)
  | [] => none
  | e :: rest => if e.1 = id then some e else lookup id rest

/-- The constant `TOOL_CREATION_TOOL_ID` (toolManager.js line 21). -/
def toolCreationToolId : String := "core_create_tool_001"

/-- The hardcoded constant `TOOL_CREATION_TOOL_DEF` (toolManager.js lines
22–41), transcribed field by field. -/
def toolCreationToolDefJ : JVal :=
  .jobj [
    ("id", .jstr "core_create_tool_001"),
    ("name", .jstr "create_new_tool"),
    ("description", .jstr "Creates a definition for a new tool based on a natural language description of the desired functionality. It generates the tool name, description, and JSON parameter schema."),
    ("parameters", .jobj [
      ("type", .jstr "object"),
      ("properties", .jobj [
        ("task_description", .jobj [
          ("type", .jstr "string"),
          ("description", .jstr "A detailed natural language description of what the new tool should do, its purpose, and any specific inputs it should take.")]),
        ("suggested_name", .jobj [
          ("type", .jstr "string"),
          ("description", .jstr "Optional: A suggested base name for the tool (e.g., \"get_weather\"). The LLM might refine it.")])]),
      ("required", .jarr [.jstr "task_description"])]),
    ("type", .jstr "core")]

/-- JavaScript `tool.id === TOOL_CREATION_TOOL_ID`: strict equality against a
string constant holds exactly when the property is that very string. -/
def isMetaId (t : JVal) : Bool :=
  match idOf t with
  | some (.jstr s) => s = toolCreationToolId
  | _ => false

/-- The string key under which an upsert stores a definition: `addTool`
passes `toolDefinition.id` as the Chroma id. After `addToolB`'s assignment
the id is a string in every state this development reaches; non-string ids
are mapped to a placeholder key (Chroma itself would reject them). -/
def idKey (d : JVal) : String :=
  match idOf d with
  | some (.jstr s) => s
  | _ => ""

/-- The embedding text computed by `addTool` (toolManager.js line 111):
the template literal interpolating name and description. -/
def embedText (d : JVal) : String :=
  jsToString (getField d "name") ++ ": " ++ jsToString (getField d "description")

/-- Body of `ToolManager.addTool` (toolManager.js lines 98–125), after the
`await this._getOrCreateCollection()` call on line 106 (whose own behaviour
is settled by the fuel model below): assigns a fresh id (`uuidv4`, modelled
by the `newId` parameter) when the `id` property is falsy, assigns the
`type` property from `isCore` when falsy, computes the embedding text, and
upserts. A failing backend upsert is re-thrown to the caller (`.error`). -/
def addToolB (tdef : JVal) (isCore : Bool) (newId : String) (upsertOk : Bool)
    (col : Collection) : Except String (JVal × Collection) :=
  let d1 := if truthy (idOf tdef) then tdef else setField tdef "id" (.jstr newId)
  let d2 := if truthy (getField d1 "type") then d1
            else setField d1 "type" (.jstr (if isCore then "core" else "llm_generated"))
  if upsertOk then
    .ok (d2, upsert (idKey d2) d2 (embedText d2) col)
  else
    .error "Chroma upsert failed"

/-- Body of `ToolManager.getTool` (toolManager.js lines 128–140), after the
initialization call on line 129: returns the stored metadata for the id, the
not-found sentinel `none` when the id is absent, and — because the catch
block converts backend errors to `null` — also `none` when the backend get
throws (`getErr` oracle). -/
def getToolB (id : String) (getErr : Bool) (col : Collection) : Option JVal :=
  if getErr then none
  else (lookup id col).map (fun e => e.2.1)

/-- Dedup step of `getAvailableTools` (toolManager.js lines 185–192): keeps
the first occurrence of each `id`-key, tracking seen ids in a `Set`. -/
def dedupGo (seen : List IdKey) : List JVal → List JVal
  | [] => []
  | t :: ts =>
      if idKeyOf t ∈ seen then dedupGo seen ts
      else t :: dedupGo (idKeyOf t :: seen) ts

/-- Body of `ToolManager.getAvailableTools` (toolManager.js lines 146–196),
after the initialization call on line 144. `embedderP` is the module-level
`embedder` being configured; `qOut` is the outcome of the Chroma similarity
query (`some metas` for `results.metadatas[0]`, `none` when the query threw
or returned no metadata — both leave `relevantTools` empty); `getErr` is the
oracle for the backend get inside `getTool`. The similarity query only runs
when the context is truthy (non-empty) and an embedder exists; its results
are filtered to exclude the meta-tool id. If the meta-tool cannot be fetched
the hardcoded constant is substituted and — exactly as in the source — the
result is returned without dedup and without the `slice` bound; otherwise
the fetched core tool is put first, the list deduplicated by id, and cut to
`maxResults + 1` entries. -/
def relevantToolsOf (context : String) (embedderP : Bool) (qOut : Option (List JVal)) :
    List JVal :=
  if context ≠ "" ∧ embedderP = true then
    match qOut with
    | some metas => metas.filter (fun t => !(isMetaId t))
    | none => []
  else []

/-- Continuation of the doc comment above: the merge, dedup and slice of
`getAvailableTools`, with `relevantToolsOf` computing the `relevantTools`
variable of the source. -/
def getAvailableToolsBody (col : Collection) (context : String) (maxResults : Nat)
    (embedderP : Bool) (qOut : Option (List JVal)) (getErr : Bool) : List JVal :=
  match getToolB toolCreationToolId getErr col with
  | none => toolCreationToolDefJ :: relevantToolsOf context embedderP qOut
  | some coreTool =>
      (dedupGo [] (coreTool :: relevantToolsOf context embedderP qOut)).take (maxResults + 1)

/-- Body of `ToolManager.ensureToolCreationTool` (toolManager.js lines
78–95), after the initialization call on line 79: checks whether the
meta-tool id is stored (`gErr = some m` when the backend get throws with
message `m`); when absent, adds the hardcoded definition via `addTool`.
A thrown error whose message contains "not found" triggers the
initial-add path; any other thrown error is only logged and swallowed.
An error thrown by the `addTool` inside the try block lands in the same
catch; one thrown inside the catch propagates. -/
def ensureBody (col : Collection) (gErr : Option String) (u1 u2 : Bool) :
    Except String Collection :=
  let tryRes : Except String Collection :=
    match gErr with
    | some m => .error m
    | none =>
        if (lookup toolCreationToolId col).isSome then .ok col
        else
          match addToolB toolCreationToolDefJ true "" u1 col with
          | .ok p => .ok p.2
          | .error m => .error m
  match tryRes with
  | .ok col2 => .ok col2
  | .error m =>
      if containsSubstr m "not found" then
        match addToolB toolCreationToolDefJ true "" u2 col with
        | .ok p => .ok p.2
        | .error m2 => .error m2
      else .ok col

/-- JavaScript `typeof v === 'object'`: true for objects, arrays, and `null`. -/
def typeofObj : JVal → Bool
  | .jobj _ => true
  | .jarr _ => true
  | .jnull => true
  | _ => false

/-- First validation condition of `executeToolCreation` (toolManager.js line
273): `name`, `description` and `parameters` are all truthy. -/
def hasRequiredFields (v : JVal) : Bool :=
  truthy (getField v "name") && truthy (getField v "description") &&
    truthy (getField v "parameters")

/-- Second validation condition (toolManager.js line 276): `parameters` is of
JavaScript type object and carries truthy `type` and `properties`. -/
def paramsSchemaOk (v : JVal) : Bool :=
  match getField v "parameters" with
  | some p => typeofObj p && truthy (getField p "type") && truthy (getField p "properties")
  | none => false

/-- The full validation of a parsed definition: both conditions. -/
def validateDef (v : JVal) : Bool :=
  hasRequiredFields v && paramsSchemaOk v

/-- Result of `executeToolCreation` as seen by its caller: an error thrown out
of the method (`raised`), the returned error object from the catch block
(`errObj`), or the returned stored definition (`okDef`). -/
inductive ExecResult where
  | raised (msg : String)
  | errObj (msg : String)
  | okDef (d : JVal)

/-- The try block of `executeToolCreation` (toolManager.js lines 240–285).
`llm` is the outcome of the completion backend call (`.error` when the client
call threw, otherwise the optional message content — `none` when the
`choices[0]?.message?.content` chain is absent; a `TypeError` from that chain
is covered by the `.error` case, with the same observable outcome). `parse`
stands for the host language's `JSON.parse`, returning `none` when parsing
throws. `upsertOk` and `newId` feed the `addTool` call. Returns `.error` for
any value thrown inside the try block, else the stored definition and the
updated collection. -/
def execPipeline (llm : Except String (Option String)) (parse : String → Option JVal)
    (upsertOk : Bool) (newId : String) (col : Collection) :
    Except String (JVal × Collection) :=
  match llm with
  | .error m => .error m
  | .ok content =>
      match content.map jsTrim with
      | none => .error "LLM response was empty."
      | some r =>
          if r = "" then .error "LLM response was empty."
          else
            match extractJson r with
            | none => .error ("LLM response did not contain the expected JSON format. Response: " ++ r)
            | some toolJson =>
                match parse toolJson with
                | none => .error ("Failed to parse JSON from LLM response. Raw JSON: " ++ toolJson)
                | some v =>
                    if ¬ hasRequiredFields v then
                      .error "Generated tool definition is missing required fields (name, description, parameters)."
                    else if ¬ paramsSchemaOk v then
                      .error "Generated tool parameters are not a valid JSON schema object."
                    else
                      match addToolB v false newId upsertOk col with
                      | .error m => .error m
                      | .ok p => .ok p

/-- `ToolManager.executeToolCreation` (toolManager.js lines 200–292): the
missing-client precondition check on line 201 throws *outside* the try block;
everything thrown inside the try block is converted by the catch block into a
returned object whose `error` message carries the prefix
"Failed to create tool: ". Returns the result together with the collection
state after the call (unchanged except by a successful upsert). -/
def executeToolCreationB (hasClient : Bool) (llm : Except String (Option String))
    (parse : String → Option JVal) (upsertOk : Bool) (newId : String)
    (col : Collection) : ExecResult × Collection :=
  if ¬ hasClient then
    (.raised "LLMClient is required for tool creation execution.", col)
  else
    match execPipeline llm parse upsertOk newId col with
    | .ok p => (.okDef p.1, p.2)
    | .error m => (.errObj ("Failed to create tool: " ++ m), col)

/-- Oracles and configuration for the initialization knot: whether the
module-level `embedder` is configured, whether
`chromaClient.getOrCreateCollection` succeeds, the contents of the collection
when first obtained, the outcome of the `collection.get` existence check
inside `ensureToolCreationTool` (`some m` = throws with message `m`), whether
upserts succeed, and the value `uuidv4()` would produce. -/
structure InitEnv where
  embedderP : Bool
  connectOk : Bool
  store0 : Collection
  getMetaErr : Option String
  upsertOk : Bool
  freshId : String

/-- Outcome of a fueled initialization computation: out of fuel (the
computation is still recursing), a thrown error, or a normal return together
with the manager's cached-collection state. -/
inductive InitOut (α : Type) where
  | fuelOut
  | raise (msg : String)
  | ok (st : Option Collection) (a : α)

/-- The error thrown by `_getOrCreateCollection` when no embedder is
configured (toolManager.js line 58). -/
def cfgErrMsg : String :=
  "Cannot create collection without an embedding function. Ensure OPENAI_API_KEY is set."

/-- The error thrown by `_getOrCreateCollection` when the backend is
unreachable (toolManager.js line 69). -/
def connErrMsg : String := "Could not connect to or create ChromaDB collection."

/-- Fueled embedding of the mutually recursive trio `_getOrCreateCollection`
(toolManager.js lines 55–75), `ensureToolCreationTool` (lines 78–95) and
`addTool` (lines 98–125), faithful to the source's call graph:
`_getOrCreateCollection` establishes the collection when uncached and then
unconditionally awaits `ensureToolCreationTool`; `ensureToolCreationTool`
begins by awaiting `_getOrCreateCollection`; `addTool` awaits
`_getOrCreateCollection` before upserting. Each function entry consumes one
unit of fuel; `InitOut.fuelOut` signals that the computation was still
recursing when the fuel ran out. The three components of the tuple are, in
order, `_getOrCreateCollection`, `ensureToolCreationTool`, and `addTool`
(the latter taking the definition and the `isCore` flag). -/
def initSys (env : InitEnv) : Nat →
    (Option Collection → InitOut Collection) ×
    (Option Collection → InitOut Unit) ×
    (JVal → Bool → Option Collection → InitOut JVal)
  | 0 => (fun _ => .fuelOut, fun _ => .fuelOut, fun _ _ _ => .fuelOut)
  | n + 1 =>
      let getF := (initSys env n).1
      let ensF := (initSys env n).2.1
      let addF := (initSys env n).2.2
      ( fun st =>
          match st with
          | some col =>
              match ensF (some col) with
              | .fuelOut => .fuelOut
              | .raise m => .raise m
              | .ok st2 _ => .ok st2 (st2.getD col)
          | none =>
              if env.embedderP = false then .raise cfgErrMsg
              else if env.connectOk = false then .raise connErrMsg
              else
                match ensF (some env.store0) with
                | .fuelOut => .fuelOut
                | .raise m => .raise m
                | .ok st2 _ => .ok st2 (st2.getD env.store0)
      , fun st =>
          match getF st with
          | .fuelOut => .fuelOut
          | .raise m => .raise m
          | .ok st2 col =>
              match env.getMetaErr with
              | some m =>
                  if containsSubstr m "not found" then
                    match addF toolCreationToolDefJ true st2 with
                    | .fuelOut => .fuelOut
                    | .raise m2 => .raise m2
                    | .ok st3 _ => .ok st3 ()
                  else .ok st2 ()
              | none =>
                  if (lookup toolCreationToolId col).isSome then .ok st2 ()
                  else
                    match addF toolCreationToolDefJ true st2 with
                    | .fuelOut => .fuelOut
                    | .raise m2 =>
                        if containsSubstr m2 "not found" then
                          match addF toolCreationToolDefJ true st2 with
                          | .fuelOut => .fuelOut
                          | .raise m3 => .raise m3
                          | .ok st3 _ => .ok st3 ()
                        else .ok st2 ()
                    | .ok st3 _ => .ok st3 ()
      , fun tdef isCore st =>
          let d1 := if truthy (idOf tdef) then tdef
                    else setField tdef "id" (.jstr env.freshId)
          let d2 := if truthy (getField d1 "type") then d1
                    else setField d1 "type" (.jstr (if isCore then "core" else "llm_generated"))
          match getF st with
          | .fuelOut => .fuelOut
          | .raise m => .raise m
          | .ok _ col =>
              if env.upsertOk then
                .ok (some (upsert (idKey d2) d2 (embedText d2) col)) d2
              else .raise "Chroma upsert failed" )

/-- `ToolManager._getOrCreateCollection` under the fuel model. -/
def getOrCreateCollectionF (env : InitEnv) (fuel : Nat) (st : Option Collection) :
    InitOut Collection :=
  (initSys env fuel).1 st

/-- `ToolManager.ensureToolCreationTool` under the fuel model. -/
def ensureToolCreationToolF (env : InitEnv) (fuel : Nat) (st : Option Collection) :
    InitOut Unit :=
  (initSys env fuel).2.1 st

/-- `ToolManager.getAvailableTools` in full (toolManager.js lines 143–196):
the initialization call on line 144 under the fuel model, followed by the
retrieval body on the resulting collection. -/
def getAvailableToolsFull (env : InitEnv) (fuel : Nat) (st : Option Collection)
    (context : String) (maxResults : Nat) (qOut : Option (List JVal))
    (getErr : Bool) : InitOut (List JVal) :=
  match getOrCreateCollectionF env fuel st with
  | .fuelOut => .fuelOut
  | .raise m => .raise m
  | .ok st2 col => .ok st2 (getAvailableToolsBody col context maxResults env.embedderP qOut getErr)

/-- Modelled from the spec, amended: extraction as claim C8 must read to match
the code — contents of a fenced block are taken only when non-empty (the
source tests the capture for truthiness, so an empty capture falls through to
the brace-delimited acceptance of the raw response). -/
def extractClaimAmended (raw : String) : Option String :=
  match findFencedC raw.data with
  | some cap =>
      if cap = [] then
        (if strStartsWith raw "\x7b" && strEndsWith raw "\x7d" then some raw else none)
      else some ⟨cap⟩
  | none =>
      if strStartsWith raw "\x7b" && strEndsWith raw "\x7d" then some raw else none

/-- Whether an `executeToolCreation` outcome is an error thrown to the caller. -/
def isRaised : ExecResult → Bool
  | .raised _ => true
  | _ => false

/-- Consistency invariant of catalog states reachable through `addTool`: every
entry's stored metadata carries its own key as string `id` property (the
source always upserts `ids: [toolDefinition.id]` with `metadatas:
[{...toolDefinition}]`). -/
def wellFormed (col : Collection) : Prop :=
  ∀ e ∈ col, idOf e.2.1 = some (JVal.jstr e.1)

/-- What the Chroma similarity query can return for `nResults = max(1, n)`
(toolManager.js line 151): at most that many neighbours, which are distinct
stored entries (hence pairwise distinct ids) drawn from the collection.
`none` covers a thrown query error and an absent metadata array alike. -/
def qValid (col : Collection) (n : Nat) (qOut : Option (List JVal)) : Prop :=
  ∀ ms, qOut = some ms →
    ms.length ≤ max 1 n ∧ ms.Pairwise (fun a b => idOf a ≠ idOf b) ∧
    ∀ t ∈ ms, ∃ e ∈ col, e.2.1 = t

/-- A generated tool stored beside the meta-tool, used as a concrete catalog
entry in witnesses and counterexamples. -/
def sampleToolX : JVal :=
  .jobj [("id", .jstr "tool_x"), ("name", .jstr "get_weather"),
         ("description", .jstr "Retrieves weather."), ("type", .jstr "llm_generated")]

/-- A concrete two-entry catalog: the meta-tool and `sampleToolX`. -/
def sampleCatalog : Collection :=
  [(toolCreationToolId, toolCreationToolDefJ, "create_new_tool: meta"),
   ("tool_x", sampleToolX, "get_weather: Retrieves weather.")]

/-- A raw completion response that is a bare JSON object (no fence) whose
definition supplies its own `type` field. -/
def rawWithType : String :=
  "\x7b\"name\":\"t\",\"description\":\"d\",\"type\":\"core\",\"parameters\":\x7b\"type\":\"object\",\"properties\":\x7b\"x\":\x7b\"type\":\"string\"\x7d\x7d\x7d\x7d"

/-- The JSON value `JSON.parse` produces for `rawWithType`. -/
def genDefWithType : JVal :=
  .jobj [("name", .jstr "t"), ("description", .jstr "d"), ("type", .jstr "core"),
         ("parameters", .jobj [("type", .jstr "object"),
           ("properties", .jobj [("x", .jobj [("type", .jstr "string")])])])]

/-- A concrete stand-in for `JSON.parse` defined on the one response the C9
counterexample uses (`JSON.parse` of `rawWithType` is `genDefWithType`). -/
def parseForC9 (s : String) : Option JVal :=
  if s = rawWithType then some genDefWithType else none

/-- The definition the code stores for the C9 counterexample: the supplied
`type: "core"` survives, only the missing `id` is assigned. -/
def storedDefC9 : JVal :=
  .jobj [("name", .jstr "t"), ("description", .jstr "d"), ("type", .jstr "core"),
         ("parameters", .jobj [("type", .jstr "object"),
           ("properties", .jobj [("x", .jobj [("type", .jstr "string")])])]),
         ("id", .jstr "uuid-fresh-1")]

/-- A concrete tool definition without an id, for the C7 witness. -/
def sampleNewDef : JVal :=
  .jobj [("name", .jstr "area_tool"), ("description", .jstr "computes area")]

/-- A bare JSON object response supplying neither `id` nor `type`. -/
def rawPlain : String :=
  "\x7b\"name\":\"t2\",\"description\":\"d2\",\"parameters\":\x7b\"type\":\"object\",\"properties\":\x7b\x7d\x7d\x7d"

/-- The JSON value `JSON.parse` produces for `rawPlain`. -/
def genDefPlain : JVal :=
  .jobj [("name", .jstr "t2"), ("description", .jstr "d2"),
         ("parameters", .jobj [("type", .jstr "object"), ("properties", .jobj [])])]

/-- A concrete stand-in for `JSON.parse` defined on the one response the C9
witness uses (`JSON.parse` of `rawPlain` is `genDefPlain`). -/
def parseForC9w (s : String) : Option JVal :=
  if s = rawPlain then some genDefPlain else none

theorem lookup_upsert (k : String) (v : JVal) (doc : String) (col : Collection) :
    lookup k (upsert k v doc col) = some (k, v, doc) := by
  induction col with
  | nil => simp [upsert, lookup]
  | cons e rest ih =>
      by_cases h : e.1 = k
      · simp [upsert, lookup, h]
      · simp [upsert, lookup, h, ih]

theorem lookup_eq_some_mem (k : String) (col : Collection) (e : String × JVal × String)
    (h : lookup k col = some e) : e ∈ col ∧ e.1 = k := by
  induction col with
  | nil => simp [lookup] at h
  | cons f rest ih =>
      by_cases hf : f.1 = k
      · simp only [lookup, hf, if_pos] at h
        injection h with h3
        subst h3
        exact ⟨List.mem_cons_self _ _, hf⟩
      · simp only [lookup, hf, if_neg, ite_false] at h
        rcases ih h with ⟨hmem, hk⟩
        exact ⟨List.mem_cons_of_mem _ hmem, hk⟩

theorem dedupGo_subset (ts : List JVal) : ∀ (seen : List IdKey), ∀ t ∈ dedupGo seen ts, t ∈ ts := by
  induction ts with
  | nil => intro seen t ht; simp [dedupGo] at ht
  | cons a rest ih =>
      intro seen t ht
      simp only [dedupGo] at ht
      by_cases h : idKeyOf a ∈ seen
      · simp only [h, if_pos] at ht
        exact List.mem_cons_of_mem _ (ih seen t ht)
      · simp only [h, if_neg, ite_false] at ht
        rcases List.mem_cons.mp ht with rfl | ht2
        · exact List.mem_cons_self _ _
        · exact List.mem_cons_of_mem _ (ih _ t ht2)

theorem dedupGo_not_seen (ts : List JVal) :
    ∀ (seen : List IdKey), ∀ t ∈ dedupGo seen ts, idKeyOf t ∉ seen := by
  induction ts with
  | nil => intro seen t ht; simp [dedupGo] at ht
  | cons a rest ih =>
      intro seen t ht
      simp only [dedupGo] at ht
      by_cases h : idKeyOf a ∈ seen
      · simp only [h, if_pos] at ht
        exact ih seen t ht
      · simp only [h, if_neg, ite_false] at ht
        rcases List.mem_cons.mp ht with rfl | ht2
        · exact h
        · intro hs
          exact ih _ t ht2 (List.mem_cons_of_mem _ hs)

theorem dedupGo_pairwise (ts : List JVal) :
    ∀ (seen : List IdKey), (dedupGo seen ts).Pairwise (fun a b => idKeyOf a ≠ idKeyOf b) := by
  induction ts with
  | nil => intro seen; simp [dedupGo]
  | cons a rest ih =>
      intro seen
      simp only [dedupGo]
      by_cases h : idKeyOf a ∈ seen
      · simp only [h, if_pos]
        exact ih seen
      · simp only [h, if_neg, ite_false]
        refine List.pairwise_cons.mpr ⟨?_, ih _⟩
        intro t ht heq
        exact dedupGo_not_seen rest _ t ht (heq ▸ List.mem_cons_self _ _)

theorem idKeyOf_congr (a b : JVal) (h : idOf a = idOf b) : idKeyOf a = idKeyOf b := by
  unfold idKeyOf
  rw [h]

theorem isMetaId_false_ne (t : JVal) (h : isMetaId t = false) :
    idOf t ≠ some (JVal.jstr toolCreationToolId) := by
  intro h2
  simp [isMetaId, h2] at h

theorem initFuelOut (env : InitEnv) : ∀ fuel (st : Option Collection),
    st.isSome = true ∨ (env.embedderP = true ∧ env.connectOk = true) →
    (initSys env fuel).1 st = InitOut.fuelOut ∧ (initSys env fuel).2.1 st = InitOut.fuelOut := by
  intro fuel
  induction fuel with
  | zero => exact fun st _ => ⟨rfl, rfl⟩
  | succ n ih =>
      intro st h
      refine ⟨?_, ?_⟩
      · cases st with
        | some col =>
            have h2 := (ih (some col) (Or.inl rfl)).2
            simp only [initSys]
            rw [h2]
        | none =>
            rcases h with h1 | ⟨he, hc⟩
            · simp at h1
            · have h2 := (ih (some env.store0) (Or.inl rfl)).2
              simp only [initSys, he, hc]
              rw [h2]
              simp
      · have h1 := (ih st h).1
        simp only [initSys]
        rw [h1]

/-- C1: evaluation of the code at the failing inputs. The claim (and the
spec's contract) says `_getOrCreateCollection` establishes or reuses the
connection, runs the ensure-meta-tool check, and returns. The code cannot:
`_getOrCreateCollection` unconditionally awaits `ensureToolCreationTool`
(line 73), whose first statement awaits `_getOrCreateCollection` (line 79),
with no guard — so whenever the call does not throw in the connection step
(the collection handle is already cached, or an embedder is configured and
the backend reachable), the mutual recursion never returns: for every fuel
bound the computation is still recursing. -/
theorem getOrCreateCollection_never_returns (env : InitEnv) (fuel : Nat)
    (st : Option Collection)
    (h : st.isSome = true ∨ (env.embedderP = true ∧ env.connectOk = true)) :
    getOrCreateCollectionF env fuel st = InitOut.fuelOut :=
  (initFuelOut env fuel st h).1

/-- Witness for C1 at a concrete input: a manager whose collection handle is
already cached (the state the claim singles out), with 5 units of fuel. -/
theorem getOrCreateCollection_never_returns_witness :
    ((some ([] : Collection)).isSome = true ∨
      ((InitEnv.mk true true [] none true "u1").embedderP = true ∧
        (InitEnv.mk true true [] none true "u1").connectOk = true)) ∧
    getOrCreateCollectionF (InitEnv.mk true true [] none true "u1") 5 (some []) = InitOut.fuelOut :=
  ⟨Or.inl rfl,
   getOrCreateCollection_never_returns (InitEnv.mk true true [] none true "u1") 5 (some [])
     (Or.inl rfl)⟩

/-- C4 counterexample: with no embedding capability configured and no cached
collection handle, `getAvailableTools` does not complete with the meta-tool:
its first await (`_getOrCreateCollection`, line 144) throws the
configuration error from line 58, failing the whole call — the claim says
the call still completes and returns only the meta-tool. -/
theorem getAvailableTools_without_embedder_raises :
    getAvailableToolsFull (InitEnv.mk false true [] none true "u2") 5 none
      "some context" 5 none false = InitOut.raise cfgErrMsg := rfl

/-- C4 (amended): when no embedding capability is configured and no
collection handle is cached, `getAvailableTools` fails the whole call by
raising the configuration error — callers are warned only at construction
time, not unblocked at call time; the skip-the-relevance-step branch of the
body is unreachable in this configuration. -/
theorem getAvailableTools_blocked_without_embedder (env : InitEnv) (fuel : Nat)
    (ctx : String) (n : Nat) (q : Option (List JVal)) (g : Bool)
    (hemb : env.embedderP = false) (hfuel : 1 ≤ fuel) :
    getAvailableToolsFull env fuel none ctx n q g = InitOut.raise cfgErrMsg := by
  cases fuel with
  | zero => exact absurd hfuel (by omega)
  | succ k =>
      simp only [getAvailableToolsFull, getOrCreateCollectionF, initSys, hemb]
      simp

/-- Witness for the amended C4 at a concrete input. -/
theorem getAvailableTools_blocked_without_embedder_witness :
    ((InitEnv.mk false true [] none true "u3").embedderP = false ∧ 1 ≤ 3) ∧
    getAvailableToolsFull (InitEnv.mk false true [] none true "u3") 3 none "ctx" 2 none true
      = InitOut.raise cfgErrMsg :=
  ⟨⟨rfl, by omega⟩,
   getAvailableTools_blocked_without_embedder (InitEnv.mk false true [] none true "u3") 3
     "ctx" 2 none true rfl (by omega)⟩

/-- C10: in `ensureToolCreationTool`, when the backend existence check throws
an error whose message does not contain the substring "not found", the catch
block only logs: the operation returns normally, the collection is unchanged
(no upsert of the meta-tool), and no error propagates. -/
theorem ensureToolCreationTool_swallows_other_errors (col : Collection) (m : String)
    (u1 u2 : Bool) (hm : containsSubstr m "not found" = false) :
    ensureBody col (some m) u1 u2 = Except.ok col := by
  simp only [ensureBody, hm]
  simp

/-- Witness for C10: a connection-reset style error message on an empty
collection — initialization completes with the meta-tool still absent. -/
theorem ensureToolCreationTool_swallows_other_errors_witness :
    containsSubstr "ECONNREFUSED: connection refused" "not found" = false ∧
    ensureBody [] (some "ECONNREFUSED: connection refused") true false = Except.ok [] :=
  ⟨rfl, ensureToolCreationTool_swallows_other_errors [] "ECONNREFUSED: connection refused"
    true false rfl⟩

/-- C8 counterexample: the response ```` ```json``` ```` contains a fenced
block (the regex matches, with empty capture), so the claim says its contents
(the empty string) are taken for parsing; the code instead tests the capture
for truthiness, treats the empty capture as no block, and fails extraction. -/
theorem extractJson_empty_capture_differs :
    extractJson "```json```" = none ∧ extractClaim "```json```" = some "" :=
  ⟨rfl, rfl⟩

/-- C8 (amended): extraction takes the contents of the first fenced
```` ```json ... ``` ```` block only when the (whitespace-trimmed) capture is
non-empty; a block with empty capture is treated as absent; with no (usable)
block the raw response is accepted for parsing exactly when it starts with an
opening brace and ends with a closing brace; otherwise extraction fails. -/
theorem extractJson_matches_amended_claim (raw : String) :
    extractJson raw = extractClaimAmended raw := by
  simp only [extractJson, extractClaimAmended]
  cases h : findFencedC raw.data with
  | none => rfl
  | some cap =>
      cases cap with
      | nil => rfl
      | cons a l => rfl

/-- C3 counterexample: with no completion client configured,
`executeToolCreation` throws (line 201–203 sits outside the try block)
instead of returning an error-bearing result, contradicting the claim's
"including the precondition failure where no completion client is
configured". -/
theorem executeToolCreation_raises_without_client :
    (executeToolCreationB false (Except.ok (some "x")) (fun _ => none) true "u" []).1
      = ExecResult.raised "LLMClient is required for tool creation execution." := rfl

/-- C3 (amended): once a completion client is configured,
`executeToolCreation` never raises to its caller — every failure anywhere in
the pipeline (completion call, empty response, extraction, parsing,
validation, persistence) is caught and converted to a returned result
carrying an error message; only the missing-client precondition is enforced
by a thrown error. -/
theorem executeToolCreation_never_raises_with_client (llm : Except String (Option String))
    (parse : String → Option JVal) (upsertOk : Bool) (newId : String) (col : Collection) :
    isRaised (executeToolCreationB true llm parse upsertOk newId col).1 = false := by
  simp only [executeToolCreationB]
  cases h : execPipeline llm parse upsertOk newId col with
  | ok p => simp [h, isRaised]
  | error m => simp [h, isRaised]

/-- C5: with an empty context the similarity query is skipped (the result is
the same for every query-oracle outcome `q`) and, whenever the meta-tool is
stored and the backend get succeeds, the returned list is exactly the single
stored meta-tool entry. -/
theorem getAvailableTools_empty_context (col : Collection) (n : Nat) (e : Bool)
    (q : Option (List JVal)) (entry : String × JVal × String)
    (hmeta : lookup toolCreationToolId col = some entry) :
    getAvailableToolsBody col "" n e q false = [entry.2.1] := by
  simp [getAvailableToolsBody, relevantToolsOf, getToolB, hmeta, dedupGo]

/-- Witness for C5 at a concrete one-entry catalog. -/
theorem getAvailableTools_empty_context_witness :
    lookup toolCreationToolId [(toolCreationToolId, toolCreationToolDefJ, "d")]
        = some (toolCreationToolId, toolCreationToolDefJ, "d") ∧
    getAvailableToolsBody [(toolCreationToolId, toolCreationToolDefJ, "d")] "" 5 true
        (some [sampleToolX]) false = [toolCreationToolDefJ] :=
  ⟨rfl, getAvailableTools_empty_context [(toolCreationToolId, toolCreationToolDefJ, "d")]
    5 true (some [sampleToolX]) (toolCreationToolId, toolCreationToolDefJ, "d") rfl⟩

/-- C7: round-trip — `addTool` on a definition with non-empty name and
description (a well-formed tool definition object, id absent-or-string)
stores a definition `d` under the id it assigns, and `getTool` on that id
returns exactly `d` (structural equality). -/
theorem addTool_getTool_roundtrip (fs : List (String × JVal)) (isCore : Bool)
    (newId : String) (col : Collection) (nm ds : String)
    (hn : getField (JVal.jobj fs) "name" = some (JVal.jstr nm)) (hn2 : nm ≠ "")
    (hd : getField (JVal.jobj fs) "description" = some (JVal.jstr ds)) (hd2 : ds ≠ "")
    (hid : truthy (idOf (JVal.jobj fs)) = false ∨
      ∃ s, idOf (JVal.jobj fs) = some (JVal.jstr s)) :
    ∃ d col2, addToolB (JVal.jobj fs) isCore newId true col = Except.ok (d, col2) ∧
      getToolB (idKey d) false col2 = some d := by
  refine ⟨_, _, rfl, ?_⟩
  simp [getToolB, lookup_upsert]

/-- Witness for C7: a concrete definition without an id added to an empty
catalog. -/
theorem addTool_getTool_roundtrip_witness :
    getField sampleNewDef "name" = some (JVal.jstr "area_tool") ∧ "area_tool" ≠ "" ∧
    getField sampleNewDef "description" = some (JVal.jstr "computes area") ∧
    "computes area" ≠ "" ∧ truthy (idOf sampleNewDef) = false ∧
    (∃ d col2, addToolB sampleNewDef false "id-123" true [] = Except.ok (d, col2) ∧
      getToolB (idKey d) false col2 = some d) :=
  ⟨rfl, by decide, rfl, by decide, rfl,
   addTool_getTool_roundtrip
     [("name", JVal.jstr "area_tool"), ("description", JVal.jstr "computes area")]
     false "id-123" [] "area_tool" "computes area" rfl (by decide) rfl (by decide)
     (Or.inl rfl)⟩

/-- C6: whenever the synthesis pipeline fails at extraction, parsing, or
validation (given a configured client and a non-empty trimmed completion
response), `executeToolCreation` returns an error object with a non-empty
message and the catalog is unchanged (no upsert happened). -/
theorem executeToolCreation_failure_is_atomic (parse : String → Option JVal)
    (upsertOk : Bool) (newId : String) (col : Collection) (s : String)
    (hs : jsTrim s ≠ "")
    (hfail : extractJson (jsTrim s) = none ∨
      (∃ j, extractJson (jsTrim s) = some j ∧ parse j = none) ∨
      (∃ j v, extractJson (jsTrim s) = some j ∧ parse j = some v ∧ validateDef v = false)) :
    ∃ m, executeToolCreationB true (Except.ok (some s)) parse upsertOk newId col
        = (ExecResult.errObj m, col) ∧ m ≠ "" := by
  have hpre : ∀ m2 : String, ("Failed to create tool: " ++ m2) ≠ "" := by
    intro m2 h
    have h2 := congrArg String.data h
    have h3 : "Failed to create tool: ".data ++ m2.data = ([] : List Char) := h2
    have h4 := List.append_eq_nil.mp h3
    exact absurd h4.1 (by decide)
  have hpipe : ∃ m2, execPipeline (Except.ok (some s)) parse upsertOk newId col
      = Except.error m2 := by
    rcases hfail with h1 | ⟨j, hj, hpj⟩ | ⟨j, v, hj, hpv, hval⟩
    · exact ⟨"LLM response did not contain the expected JSON format. Response: " ++ jsTrim s,
        by simp [execPipeline, hs, h1]⟩
    · exact ⟨"Failed to parse JSON from LLM response. Raw JSON: " ++ j,
        by simp [execPipeline, hs, hj, hpj]⟩
    · by_cases hr : hasRequiredFields v = true
      · have hp2 : paramsSchemaOk v = false := by
          rcases Bool.and_eq_false_iff.mp (by simpa [validateDef] using hval) with h | h
          · exact absurd hr (by simp [h])
          · exact h
        exact ⟨"Generated tool parameters are not a valid JSON schema object.",
          by simp [execPipeline, hs, hj, hpv, hr, hp2]⟩
      · exact ⟨"Generated tool definition is missing required fields (name, description, parameters).",
          by simp [execPipeline, hs, hj, hpv, hr]⟩
  rcases hpipe with ⟨m2, hm2⟩
  exact ⟨"Failed to create tool: " ++ m2, by simp [executeToolCreationB, hm2], hpre m2⟩

/-- Witness for C6: a refusal-style completion response with no JSON at all,
against the concrete two-entry catalog. -/
theorem executeToolCreation_failure_is_atomic_witness :
    jsTrim "I cannot produce that." ≠ "" ∧
    (extractJson (jsTrim "I cannot produce that.") = none ∨
      (∃ j, extractJson (jsTrim "I cannot produce that.") = some j ∧
        (fun (_ : String) => (none : Option JVal)) j = none) ∨
      (∃ j v, extractJson (jsTrim "I cannot produce that.") = some j ∧
        (fun (_ : String) => (none : Option JVal)) j = some v ∧ validateDef v = false)) ∧
    (∃ m, executeToolCreationB true (Except.ok (some "I cannot produce that."))
        (fun _ => none) true "u9" sampleCatalog = (ExecResult.errObj m, sampleCatalog) ∧
      m ≠ "") :=
  ⟨by decide, Or.inl rfl,
   executeToolCreation_failure_is_atomic (fun _ => none) true "u9" sampleCatalog
     "I cannot produce that." (by decide) (Or.inl rfl)⟩

theorem find?_map_setKey (rest : List (String × JVal)) (k k2 : String) (x : JVal)
    (hne : k2 ≠ k) :
    (rest.map (fun q => if q.1 = k then (k, x) else q)).find? (fun q => q.1 = k2)
      = rest.find? (fun q => q.1 = k2) := by
  induction rest with
  | nil => rfl
  | cons q rest ih =>
      by_cases hq : q.1 = k
      · have hq2 : ¬ q.1 = k2 := by rw [hq]; exact fun h => hne h.symm
        simp [List.find?_cons, hq, hq2, Ne.symm hne, ih]
      · by_cases hq2 : q.1 = k2
        · simp only [List.map_cons]
          rw [if_neg hq]
          simp [List.find?_cons, hq2]
        · simp only [List.map_cons]
          rw [if_neg hq]
          simp [List.find?_cons, hq2, ih]

theorem find?_append_setKey (rest : List (String × JVal)) (k k2 : String) (x : JVal)
    (hne : k2 ≠ k) :
    ((rest ++ [(k, x)]).find? (fun q => q.1 = k2)) = rest.find? (fun q => q.1 = k2) := by
  induction rest with
  | nil => simp [List.find?, Ne.symm hne]
  | cons q rest ih =>
      by_cases hq2 : q.1 = k2
      · simp [List.find?_cons, hq2]
      · simp [List.find?_cons, hq2, ih]

theorem find?_map_setKey_same (fs : List (String × JVal)) (k : String) (x : JVal)
    (h : fs.any (fun q => q.1 = k) = true) :
    (fs.map (fun q => if q.1 = k then (k, x) else q)).find? (fun q => q.1 = k)
      = some (k, x) := by
  induction fs with
  | nil => simp at h
  | cons q rest ih =>
      by_cases hq : q.1 = k
      · simp [List.find?_cons, hq]
      · have h2 : rest.any (fun q => q.1 = k) = true := by
          simpa [List.any_cons, hq] using h
        simp [List.find?_cons, hq, ih h2]

theorem find?_append_setKey_same (fs : List (String × JVal)) (k : String) (x : JVal)
    (h : fs.any (fun q => q.1 = k) = false) :
    ((fs ++ [(k, x)]).find? (fun q => q.1 = k)) = some (k, x) := by
  induction fs with
  | nil => simp [List.find?]
  | cons q rest ih =>
      have h2 := h
      rw [List.any_cons, Bool.or_eq_false_iff] at h2
      have hq : ¬ q.1 = k := by simpa using h2.1
      simp [List.find?_cons, hq, ih h2.2]

theorem getField_setField_same (fs : List (String × JVal)) (k : String) (x : JVal) :
    getField (setField (JVal.jobj fs) k x) k = some x := by
  simp only [setField, getField]
  by_cases h2 : fs.any (fun p => p.1 = k) = true
  · rw [if_pos h2, find?_map_setKey_same fs k x h2]
    rfl
  · rw [if_neg h2, find?_append_setKey_same fs k x (Bool.eq_false_iff.mpr h2)]
    rfl

theorem getField_setField_other (fs : List (String × JVal)) (k k2 : String) (x : JVal)
    (hne : k2 ≠ k) :
    getField (setField (JVal.jobj fs) k x) k2 = getField (JVal.jobj fs) k2 := by
  simp only [setField, getField]
  by_cases h2 : fs.any (fun p => p.1 = k) = true
  · rw [if_pos h2, find?_map_setKey fs k k2 x hne]
  · rw [if_neg h2, find?_append_setKey fs k k2 x hne]

theorem validateDef_jobj (v : JVal) (h : validateDef v = true) :
    ∃ fs, v = JVal.jobj fs := by
  cases v
  case jobj fs => exact ⟨fs, rfl⟩
  all_goals simp [validateDef, hasRequiredFields, getField, truthy] at h

/-- C9 counterexample: a completion response whose parsed definition passes
validation but supplies its own `type: "core"`: `executeToolCreation` stores
and returns it with that type — not `llm_generated` — because `addTool` only
assigns `type` when the field is falsy (and likewise would keep a supplied
`id` instead of generating a fresh one). -/
theorem executeToolCreation_keeps_supplied_type :
    validateDef genDefWithType = true ∧
    (executeToolCreationB true (Except.ok (some rawWithType)) parseForC9 true
        "uuid-fresh-1" sampleCatalog).1 = ExecResult.okDef storedDefC9 ∧
    getField storedDefC9 "type" = some (JVal.jstr "core") := ⟨rfl, rfl, rfl⟩

/-- C9 (amended): for every completion response whose parsed definition
passes validation *and supplies neither an `id` nor a `type` of its own*,
`executeToolCreation` persists it via `addTool` with `isCore = false`: the
stored definition carries the freshly generated (non-empty) id and
`type: llm_generated`, and `getTool` on that id afterwards succeeds,
returning exactly the stored definition. -/
theorem executeToolCreation_persists_validated (parse : String → Option JVal)
    (newId : String) (col : Collection) (s j : String) (v : JVal)
    (hs : jsTrim s ≠ "")
    (hex : extractJson (jsTrim s) = some j)
    (hp : parse j = some v)
    (hv : validateDef v = true)
    (hid : truthy (idOf v) = false)
    (hty : truthy (getField v "type") = false)
    (hnid : newId ≠ "") :
    ∃ d col2,
      executeToolCreationB true (Except.ok (some s)) parse true newId col
        = (ExecResult.okDef d, col2) ∧
      idOf d = some (JVal.jstr newId) ∧
      getField d "type" = some (JVal.jstr "llm_generated") ∧
      getToolB newId false col2 = some d := by
  obtain ⟨fs, rfl⟩ := validateDef_jobj v hv
  have hv2 := hv
  simp only [validateDef, Bool.and_eq_true] at hv2
  obtain ⟨hr, hps⟩ := hv2
  obtain ⟨gs, hgs⟩ : ∃ gs, setField (JVal.jobj fs) "id" (JVal.jstr newId) = JVal.jobj gs := by
    simp only [setField]
    exact ⟨_, rfl⟩
  have f1 : getField (JVal.jobj gs) "id" = some (JVal.jstr newId) := by
    rw [← hgs]
    exact getField_setField_same fs "id" (JVal.jstr newId)
  have htyD1 : truthy (getField (JVal.jobj gs) "type") = false := by
    rw [← hgs, getField_setField_other fs "id" "type" (JVal.jstr newId) (by decide)]
    exact hty
  have fdid : getField (setField (JVal.jobj gs) "type" (JVal.jstr "llm_generated")) "id"
      = some (JVal.jstr newId) := by
    rw [getField_setField_other gs "type" "id" (JVal.jstr "llm_generated") (by decide)]
    exact f1
  have fdty : getField (setField (JVal.jobj gs) "type" (JVal.jstr "llm_generated")) "type"
      = some (JVal.jstr "llm_generated") :=
    getField_setField_same gs "type" (JVal.jstr "llm_generated")
  have fkey : idKey (setField (JVal.jobj gs) "type" (JVal.jstr "llm_generated")) = newId := by
    simp [idKey, idOf, fdid]
  have haddB : addToolB (JVal.jobj fs) false newId true col
      = Except.ok (setField (JVal.jobj gs) "type" (JVal.jstr "llm_generated"),
          upsert newId (setField (JVal.jobj gs) "type" (JVal.jstr "llm_generated"))
            (embedText (setField (JVal.jobj gs) "type" (JVal.jstr "llm_generated"))) col) := by
    simp [addToolB, hid, hgs, htyD1, fkey]
  refine ⟨setField (JVal.jobj gs) "type" (JVal.jstr "llm_generated"),
          upsert newId (setField (JVal.jobj gs) "type" (JVal.jstr "llm_generated"))
            (embedText (setField (JVal.jobj gs) "type" (JVal.jstr "llm_generated"))) col,
          ?_, fdid, fdty, ?_⟩
  · simp [executeToolCreationB, execPipeline, hs, hex, hp, hr, hps, haddB]
  · simp [getToolB, lookup_upsert]

/-- Witness for the amended C9 at a concrete response with no id and no type
supplied, against the concrete two-entry catalog. -/
theorem executeToolCreation_persists_validated_witness :
    jsTrim rawPlain ≠ "" ∧ extractJson (jsTrim rawPlain) = some rawPlain ∧
    parseForC9w rawPlain = some genDefPlain ∧ validateDef genDefPlain = true ∧
    truthy (idOf genDefPlain) = false ∧ truthy (getField genDefPlain "type") = false ∧
    ("uuid-w-1" : String) ≠ "" ∧
    (∃ d col2,
      executeToolCreationB true (Except.ok (some rawPlain)) parseForC9w true
          "uuid-w-1" sampleCatalog = (ExecResult.okDef d, col2) ∧
      idOf d = some (JVal.jstr "uuid-w-1") ∧
      getField d "type" = some (JVal.jstr "llm_generated") ∧
      getToolB "uuid-w-1" false col2 = some d) :=
  ⟨by decide, rfl, rfl, rfl, rfl, rfl, by decide,
   executeToolCreation_persists_validated parseForC9w "uuid-w-1" sampleCatalog
     rawPlain rawPlain genDefPlain (by decide) rfl rfl rfl rfl rfl (by decide)⟩

theorem relevantToolsOf_facts (col : Collection) (n : Nat) (ctx : String) (e : Bool)
    (qOut : Option (List JVal)) (hq : qValid col n qOut) :
    (∀ t ∈ relevantToolsOf ctx e qOut, idOf t ≠ some (JVal.jstr toolCreationToolId)) ∧
    (relevantToolsOf ctx e qOut).Pairwise (fun a b => idOf a ≠ idOf b) ∧
    (relevantToolsOf ctx e qOut).length ≤ max 1 n := by
  unfold relevantToolsOf
  by_cases hc : ctx ≠ "" ∧ e = true
  · rw [if_pos hc]
    cases hqo : qOut with
    | none => simp
    | some ms =>
        obtain ⟨hlen, hpw, _⟩ := hq ms hqo
        refine ⟨?_, ?_, ?_⟩
        · intro t ht
          have h2 : isMetaId t = false := by
            have := (List.mem_filter.mp ht).2
            simpa using this
          exact isMetaId_false_ne t h2
        · exact hpw.filter _
        · exact le_trans (List.length_filter_le _ _) hlen
  · rw [if_neg hc]
    simp

/-- C2 counterexample: on the defensive path (the backend get of the
meta-tool fails) the source returns `[TOOL_CREATION_TOOL_DEF,
...relevantTools]` with no dedup and no slice, so with `maxResults = 0` and a
legitimate one-element query result the returned list carries one further
entry beyond the meta-tool, exceeding the claimed bound of zero. -/
theorem getAvailableTools_defensive_exceeds_bound :
    wellFormed sampleCatalog ∧ qValid sampleCatalog 0 (some [sampleToolX]) ∧
    getAvailableToolsBody sampleCatalog "weather" 0 true (some [sampleToolX]) true
      = [toolCreationToolDefJ, sampleToolX] ∧
    ¬ ((getAvailableToolsBody sampleCatalog "weather" 0 true (some [sampleToolX]) true).length
        ≤ 0 + 1) := by
  refine ⟨?_, ?_, rfl, ?_⟩
  · intro f hf
    simp only [sampleCatalog, List.mem_cons, List.not_mem_nil, or_false] at hf
    rcases hf with rfl | rfl <;> rfl
  · intro ms hms
    injection hms with h
    subst h
    refine ⟨by decide, by simp, ?_⟩
    intro t ht
    simp only [List.mem_singleton] at ht
    subst ht
    exact ⟨("tool_x", sampleToolX, "get_weather: Retrieves weather."), by simp [sampleCatalog], rfl⟩
  · have h : getAvailableToolsBody sampleCatalog "weather" 0 true (some [sampleToolX]) true
        = [toolCreationToolDefJ, sampleToolX] := rfl
    rw [h]
    decide


/-- C2 (amended): for every consistently-stored catalog state, context,
maxResults `n` and legitimate backend behaviours, the list returned by
`getAvailableTools` has the meta-tool id at index 0 and nowhere else and all
entries have pairwise distinct ids; it contains at most `n` further entries
on the normal path (meta-tool fetched from storage), while on the defensive
path (meta-tool fetch failed, constant substituted) the list is not
truncated and may carry up to `max 1 n` further entries. -/
theorem getAvailableTools_shape (col : Collection) (ctx : String) (n : Nat)
    (e : Bool) (qOut : Option (List JVal)) (gErr : Bool)
    (hwf : wellFormed col) (hq : qValid col n qOut) :
    ∃ hd tl, getAvailableToolsBody col ctx n e qOut gErr = hd :: tl ∧
      idOf hd = some (JVal.jstr toolCreationToolId) ∧
      (∀ t ∈ tl, idOf t ≠ some (JVal.jstr toolCreationToolId)) ∧
      (hd :: tl).Pairwise (fun a b => idOf a ≠ idOf b) ∧
      (hd :: tl).length ≤ max 1 n + 1 ∧
      ((getToolB toolCreationToolId gErr col).isSome = true → (hd :: tl).length ≤ n + 1) := by
  obtain ⟨hMeta, hPW, hLen⟩ := relevantToolsOf_facts col n ctx e qOut hq
  cases hct : getToolB toolCreationToolId gErr col with
  | none =>
      have hbody : getAvailableToolsBody col ctx n e qOut gErr
          = toolCreationToolDefJ :: relevantToolsOf ctx e qOut := by
        simp [getAvailableToolsBody, hct]
      refine ⟨toolCreationToolDefJ, relevantToolsOf ctx e qOut, hbody, rfl, hMeta, ?_, ?_, ?_⟩
      · refine List.pairwise_cons.mpr ⟨?_, hPW⟩
        intro t ht heq
        have hmid : idOf toolCreationToolDefJ = some (JVal.jstr toolCreationToolId) := rfl
        exact hMeta t ht (heq.symm.trans hmid)
      · simpa using Nat.add_le_add_right hLen 1
      · intro hsome
        exact absurd hsome (by simp [hct])
  | some ct =>
      have hlook : ∃ en, lookup toolCreationToolId col = some en ∧ ct = en.2.1 := by
        cases gErr with
        | true => simp [getToolB] at hct
        | false =>
            simp only [getToolB, Bool.false_eq_true, if_false, ite_false] at hct
            cases hl : lookup toolCreationToolId col with
            | none => rw [hl] at hct; simp at hct
            | some en =>
                rw [hl] at hct
                simp at hct
                exact ⟨en, rfl, hct.symm⟩
      obtain ⟨en, hen, rfl⟩ := hlook
      obtain ⟨henmem, henkey⟩ := lookup_eq_some_mem _ _ _ hen
      have hctid : idOf en.2.1 = some (JVal.jstr toolCreationToolId) := by
        have h2 := hwf en henmem
        rw [henkey] at h2
        exact h2
      have hded : dedupGo [] (en.2.1 :: relevantToolsOf ctx e qOut)
          = en.2.1 :: dedupGo [idKeyOf en.2.1] (relevantToolsOf ctx e qOut) := by
        simp [dedupGo]
      have hbody : getAvailableToolsBody col ctx n e qOut gErr
          = en.2.1 :: (dedupGo [idKeyOf en.2.1] (relevantToolsOf ctx e qOut)).take n := by
        simp only [getAvailableToolsBody, hct, hded, List.take_succ_cons]
      refine ⟨en.2.1, (dedupGo [idKeyOf en.2.1] (relevantToolsOf ctx e qOut)).take n,
        hbody, hctid, ?_, ?_, ?_, ?_⟩
      · intro t ht
        have h1 : t ∈ dedupGo [idKeyOf en.2.1] (relevantToolsOf ctx e qOut) :=
          (List.take_sublist _ _).subset ht
        exact hMeta t (dedupGo_subset _ _ t h1)
      · refine List.pairwise_cons.mpr ⟨?_, ?_⟩
        · intro t ht heq
          have h1 : t ∈ dedupGo [idKeyOf en.2.1] (relevantToolsOf ctx e qOut) :=
            (List.take_sublist _ _).subset ht
          have h2 := dedupGo_not_seen (relevantToolsOf ctx e qOut) [idKeyOf en.2.1] t h1
          apply h2
          rw [idKeyOf_congr t en.2.1 heq.symm]
          exact List.mem_cons_self _ _
        · have h3 := dedupGo_pairwise (relevantToolsOf ctx e qOut) [idKeyOf en.2.1]
          have h4 : (dedupGo [idKeyOf en.2.1] (relevantToolsOf ctx e qOut)).Pairwise
              (fun a b => idOf a ≠ idOf b) :=
            h3.imp (fun hk heq => hk (idKeyOf_congr _ _ heq))
          exact h4.sublist (List.take_sublist _ _)
      · have h5 : ((dedupGo [idKeyOf en.2.1] (relevantToolsOf ctx e qOut)).take n).length ≤ n :=
          List.length_take_le _ _
        simp only [List.length_cons]
        omega
      · intro _
        have h5 : ((dedupGo [idKeyOf en.2.1] (relevantToolsOf ctx e qOut)).take n).length ≤ n :=
          List.length_take_le _ _
        simp only [List.length_cons]
        omega

/-- Witness for the amended C2 at a concrete catalog, non-empty context,
`maxResults = 2`, one legitimate query result and a succeeding backend get. -/
theorem getAvailableTools_shape_witness :
    wellFormed sampleCatalog ∧ qValid sampleCatalog 2 (some [sampleToolX]) ∧
    (∃ hd tl, getAvailableToolsBody sampleCatalog "weather" 2 true (some [sampleToolX]) false
        = hd :: tl ∧
      idOf hd = some (JVal.jstr toolCreationToolId) ∧
      (∀ t ∈ tl, idOf t ≠ some (JVal.jstr toolCreationToolId)) ∧
      (hd :: tl).Pairwise (fun a b => idOf a ≠ idOf b) ∧
      (hd :: tl).length ≤ max 1 2 + 1 ∧
      ((getToolB toolCreationToolId false sampleCatalog).isSome = true →
        (hd :: tl).length ≤ 2 + 1)) := by
  have hwf : wellFormed sampleCatalog := by
    intro f hf
    simp only [sampleCatalog, List.mem_cons, List.not_mem_nil, or_false] at hf
    rcases hf with rfl | rfl <;> rfl
  have hq : qValid sampleCatalog 2 (some [sampleToolX]) := by
    intro ms hms
    injection hms with h
    subst h
    refine ⟨by decide, by simp, ?_⟩
    intro t ht
    simp only [List.mem_singleton] at ht
    subst ht
    exact ⟨("tool_x", sampleToolX, "get_weather: Retrieves weather."), by simp [sampleCatalog], rfl⟩
  exact ⟨hwf, hq,
    getAvailableTools_shape sampleCatalog "weather" 2 true (some [sampleToolX]) false hwf hq⟩
